import Mathlib

/-!
Verification of the joint slot-tagging / intent-detection training script
(`scripts/slot_tagging_and_intent_detection_by_HG.py`).

The development shallowly embeds the scoring, decoding and driver logic of
the script:

* chunk extraction and the membership-based TP/FP/FN counting of the
  `decode` function (lines 333-346);
* the precision/recall/F1 aggregation (lines 389-397);
* intent counting, multi-label and single-label (lines 352-378);
* intent decoding, argmax and 0.5-thresholding (lines 323-326, 354);
* the reported per-batch losses and the pad-zeroing weight mask
  (lines 252-260, 327, 441);
* the command-line assertions and the top-level control flow of the
  script, including which global names each phase binds and reads
  (lines 69-253, 402-514);
* the checkpointing rule of the epoch loop (lines 487-495) and the
  per-epoch shuffling / evaluation visiting order (lines 277-283,
  383-387, 408-425).

Machine floats of the script hold exact small integers in the scoring
counters; they are embedded as `ℚ` (for metric division) or `ℕ`.
-/

/-! ## Chunks and chunk extraction

`utils/acc.py` is not part of the sources at hand; `get_chunks` is
modelled from the spec. A chunk is a `(label, start, end)` triple.
-/

/-- A chunk: label, start index, end index (inclusive). -/
abbrev Chunk := String × ℕ × ℕ

/-- Label carried by a `B-X` / `I-X` tag. -/
def chunkLabel (t : String) : String := t.drop 2

/-- Whether the tag opens a chunk (`B-X`). -/
def isBeginTag (t : String) : Bool := t.startsWith "B-"

/-- Whether the tag is an inside tag (`I-X`). -/
def isInsideTag (t : String) : Bool := t.startsWith "I-"

/-- Left-to-right scan over the tag list: `i` is the index of the next
tag, the last argument is the currently open chunk (label and start), if
any.  A chunk opens on any tag introducing a label that does not continue
the open chunk, and closes on the first tag that is not `I-X` for the
open label `X`. -/
def chunkScan : List String → ℕ → Option (String × ℕ) → List Chunk
  | [], _, none => []
  | [], i, some (lab, s) => [(lab, s, i - 1)]
  | t :: rest, i, none =>
      if isBeginTag t || isInsideTag t then
        chunkScan rest (i + 1) (some (chunkLabel t, i))
      else
        chunkScan rest (i + 1) none
  | t :: rest, i, some (lab, s) =>
      if isInsideTag t && chunkLabel t == lab then
        chunkScan rest (i + 1) (some (lab, s))
      else
        (lab, s, i - 1) ::
          (if isBeginTag t || isInsideTag t then
            chunkScan rest (i + 1) (some (chunkLabel t, i))
          else
            chunkScan rest (i + 1) none)

/-- Modelled from the spec: `acc.get_chunks` (in `utils/acc.py`, absent
from the sources) extracts `(label, start, end)` triples from a
BIO-style tag sequence, per the standard BIO boundary rules stated in
the spec: a new chunk of label `X` opens on any tag introducing `X`
that does not continue an already-open `X` chunk, and an open chunk
closes the moment the current tag is not `I-X` for the same `X`. -/
def get_chunks (tags : List String) : List Chunk := chunkScan tags 0 none

/-! ## Slot chunk scoring (decode, lines 333-346) -/

/-- One example's slot-counter update (decode, lines 337-346): chunk lists
come from the tag sequences bracketed with an explicit `"O"` on both
sides; every predicted chunk found in the gold list adds one to TP,
every one not found adds one to FP, every gold chunk absent from the
predicted list adds one to FN. -/
def slotChunkUpdate (c : ℕ × ℕ × ℕ) (predSeq labSeq : List String) :
    ℕ × ℕ × ℕ :=
  let pred_chunks := get_chunks ("O" :: predSeq ++ ["O"])
  let label_chunks := get_chunks ("O" :: labSeq ++ ["O"])
  let c1 := pred_chunks.foldl
    (fun c pc =>
      if pc ∈ label_chunks then (c.1 + 1, c.2.1, c.2.2)
      else (c.1, c.2.1 + 1, c.2.2)) c
  label_chunks.foldl
    (fun c lc =>
      if lc ∉ pred_chunks then (c.1, c.2.1, c.2.2 + 1) else c) c1

/-! ### Fold lemmas for the membership counting -/

theorem foldl_member_tpfp {α : Type} (p : α → Prop) [DecidablePred p] :
    ∀ (l : List α) (tp fp fn : ℕ),
      l.foldl
        (fun c x =>
          if p x then (c.1 + 1, c.2.1, c.2.2)
          else (c.1, c.2.1 + 1, c.2.2)) (tp, fp, fn)
      = (tp + l.countP (fun x => decide (p x)),
         fp + l.countP (fun x => decide (¬ p x)), fn) := by
  intro l
  induction l with
  | nil => intro tp fp fn; simp
  | cons x rest ih =>
      intro tp fp fn
      simp only [List.foldl_cons]
      by_cases hx : p x
      · rw [if_pos hx, ih, List.countP_cons, List.countP_cons]
        simp [hx, Prod.ext_iff, Nat.add_comm, Nat.add_assoc, Nat.add_left_comm]
      · rw [if_neg hx, ih, List.countP_cons, List.countP_cons]
        simp [hx, Prod.ext_iff, Nat.add_comm, Nat.add_assoc, Nat.add_left_comm]

theorem foldl_member_fn {α : Type} (q : α → Prop) [DecidablePred q] :
    ∀ (l : List α) (tp fp fn : ℕ),
      l.foldl
        (fun c x =>
          if q x then (c.1, c.2.1, c.2.2 + 1) else c) (tp, fp, fn)
      = (tp, fp, fn + l.countP (fun x => decide (q x))) := by
  intro l
  induction l with
  | nil => intro tp fp fn; simp
  | cons x rest ih =>
      intro tp fp fn
      simp only [List.foldl_cons]
      by_cases hx : q x
      · rw [if_pos hx, ih, List.countP_cons]
        simp [hx, Prod.ext_iff, Nat.add_comm, Nat.add_assoc, Nat.add_left_comm]
      · rw [if_neg hx, ih, List.countP_cons]
        simp [hx]

/-- C1: In every evaluation pass, slot-task chunk scoring counts, per
example, TP += 1 for each predicted chunk that is a member of the gold
chunk list and FP += 1 otherwise, and FN += 1 for each gold chunk not a
member of the predicted chunk list, where both chunk lists are extracted
from the tag sequence bracketed by an explicit `O` tag added before the
first and after the last token; the comparison is membership-based
(`countP` of a membership predicate, duplicates each counted), not a
bipartite matching. -/
theorem C1_slot_chunk_scoring_membership (tp fp fn : ℕ)
    (predSeq labSeq : List String) :
    slotChunkUpdate (tp, fp, fn) predSeq labSeq =
      (tp + (get_chunks ("O" :: predSeq ++ ["O"])).countP
              (fun c => decide (c ∈ get_chunks ("O" :: labSeq ++ ["O"]))),
       fp + (get_chunks ("O" :: predSeq ++ ["O"])).countP
              (fun c => decide (c ∉ get_chunks ("O" :: labSeq ++ ["O"]))),
       fn + (get_chunks ("O" :: labSeq ++ ["O"])).countP
              (fun c => decide (c ∉ get_chunks ("O" :: predSeq ++ ["O"])))) := by
  simp only [slotChunkUpdate]
  rw [foldl_member_tpfp (fun c => c ∈ get_chunks ("O" :: labSeq ++ ["O"])),
    foldl_member_fn (fun c => c ∉ get_chunks ("O" :: predSeq ++ ["O"]))]

/-! ## Precision / recall / F1 aggregation (decode, lines 389-397) -/

/-- The metric aggregation run once at the end of `decode` (lines
389-392 for the slot counters, lines 394-397 for the intent counters):
`(0, 0, 0)` when `TP == 0`, otherwise the percentage formulas. -/
def computePRF (tp fp fn : ℚ) : ℚ × ℚ × ℚ :=
  if tp = 0 then (0, 0, 0)
  else (100 * tp / (tp + fp), 100 * tp / (tp + fn),
        100 * 2 * tp / (2 * tp + fn + fp))

/-- C2: at the end of each evaluation pass the returned metrics are
`precision = 100·TP/(TP+FP)`, `recall = 100·TP/(TP+FN)`,
`F1 = 100·2·TP/(2·TP+FP+FN)`, and all three are exactly `0` whenever
`TP = 0` (including the corner case `TP = FP = FN = 0`); when `TP ≠ 0`
every denominator is nonzero, so no division error can occur. Counters
are natural numbers accumulated by `+= 1` steps, embedded via casts. -/
theorem C2_metric_aggregation (tp fp fn : ℕ) :
    computePRF 0 (fp : ℚ) (fn : ℚ) = (0, 0, 0)
  ∧ ((tp : ℚ) + 1 + fp ≠ 0 ∧ (tp : ℚ) + 1 + fn ≠ 0
      ∧ 2 * ((tp : ℚ) + 1) + fn + fp ≠ 0)
  ∧ computePRF ((tp : ℚ) + 1) (fp : ℚ) (fn : ℚ)
      = (100 * ((tp : ℚ) + 1) / ((tp : ℚ) + 1 + fp),
         100 * ((tp : ℚ) + 1) / ((tp : ℚ) + 1 + fn),
         100 * 2 * ((tp : ℚ) + 1) / (2 * ((tp : ℚ) + 1) + fn + fp)) := by
  refine ⟨by simp [computePRF], ⟨by positivity, by positivity, by positivity⟩, ?_⟩
  rw [computePRF, if_neg (by positivity)]

/-! ## Intent scoring (decode, lines 352-378) -/

/-- One example's multi-label intent counter update (decode, lines
356-363): predicted classes present in the gold list add one to TP2,
absent ones add one to FP2, gold classes absent from the predicted list
add one to FN2. -/
def intentUpdateMulti (c : ℕ × ℕ × ℕ)
    (pred_classes gold_classes : List String) : ℕ × ℕ × ℕ :=
  let c1 := pred_classes.foldl
    (fun c pc =>
      if pc ∈ gold_classes then (c.1 + 1, c.2.1, c.2.2)
      else (c.1, c.2.1 + 1, c.2.2)) c
  gold_classes.foldl
    (fun c gc =>
      if gc ∉ pred_classes then (c.1, c.2.1, c.2.2 + 1) else c) c1

/-- One example's single-label intent counter update (decode, lines
372-376): a predicted class inside the gold set adds one to TP2, and
otherwise one is added to both FP2 and FN2. -/
def intentUpdateSingle (c : ℕ × ℕ × ℕ) (pred_class : String)
    (gold_classes : List String) : ℕ × ℕ × ℕ :=
  if pred_class ∈ gold_classes then (c.1 + 1, c.2.1, c.2.2)
  else (c.1, c.2.1 + 1, c.2.2 + 1)

/-- C3: intent scoring uses the same membership counting on the
predicted-id set versus the gold-id set — each predicted intent in the
gold set adds 1 to TP2, each predicted one not in the gold set adds 1 to
FP2, each gold one not predicted adds 1 to FN2 — and in single-label
mode, with the gold intent a singleton set, a wrong prediction
increments both FP2 and FN2 by exactly 1 while a correct one increments
only TP2. -/
theorem C3_intent_membership_counting (tp fp fn : ℕ)
    (pred gold : List String) (p g : String) :
    intentUpdateMulti (tp, fp, fn) pred gold =
      (tp + pred.countP (fun x => decide (x ∈ gold)),
       fp + pred.countP (fun x => decide (x ∉ gold)),
       fn + gold.countP (fun x => decide (x ∉ pred)))
  ∧ intentUpdateSingle (tp, fp, fn) p [g] =
      (if p = g then (tp + 1, fp, fn) else (tp, fp + 1, fn + 1)) := by
  constructor
  · simp only [intentUpdateMulti]
    rw [foldl_member_tpfp (fun x => x ∈ gold),
      foldl_member_fn (fun x => x ∉ pred)]
  · by_cases hp : p = g <;> simp [intentUpdateSingle, hp]

/-! ## Intent decoding (decode, lines 323-326 and 354)

In single-label mode the script takes `argmax(axis=-1)` of the class
scores (line 326); `np.argmax` returns the index of the first maximal
entry.  In multi-label mode it keeps every class index whose
probability is `> 0.5` (line 354).
-/

/-- `np.argmax` over one example's class-score row: the index of the
first occurrence of the maximal entry (`0` on an empty row, which the
script never produces). -/
def npArgmax : List ℚ → ℕ
  | [] => 0
  | x :: xs => (x :: xs).indexOf (xs.foldl max x)

/-- Multi-label intent decoding (decode, line 354): all class indices
whose probability strictly exceeds `0.5`. -/
def multiPredIds (probs : List ℚ) : List ℕ :=
  (probs.enum.filter (fun ip => (1 : ℚ)/2 < ip.2)).map Prod.fst

theorem foldl_max_mem (xs : List ℚ) : ∀ x : ℚ, xs.foldl max x ∈ x :: xs := by
  induction xs with
  | nil => intro x; simp
  | cons y ys ih =>
      intro x
      simp only [List.foldl_cons]
      rcases List.mem_cons.1 (ih (max x y)) with h1 | h1
      · rcases max_choice x y with hm | hm
        · rw [h1, hm]; exact List.mem_cons_self _ _
        · rw [h1, hm]; exact List.mem_cons_of_mem _ (List.mem_cons_self _ _)
      · exact List.mem_cons_of_mem _ (List.mem_cons_of_mem _ h1)

theorem le_foldl_max (xs : List ℚ) :
    ∀ (x : ℚ) (y : ℚ), y ∈ x :: xs → y ≤ xs.foldl max x := by
  induction xs with
  | nil => intro x y hy; simp at hy; simp [hy]
  | cons z zs ih =>
      intro x y hy
      simp only [List.foldl_cons]
      have hself : max x z ≤ zs.foldl max (max x z) :=
        ih (max x z) (max x z) (List.mem_cons_self _ _)
      rcases List.mem_cons.1 hy with rfl | h1
      · exact le_trans (le_max_left _ z) hself
      · rcases List.mem_cons.1 h1 with rfl | h2
        · exact le_trans (le_max_right x _) hself
        · exact ih (max x z) y (List.mem_cons_of_mem _ h2)

theorem npArgmax_lt (x : ℚ) (xs : List ℚ) :
    npArgmax (x :: xs) < (x :: xs).length := by
  simpa [npArgmax] using List.indexOf_lt_length.2 (foldl_max_mem xs x)

theorem npArgmax_getD (x : ℚ) (xs : List ℚ) :
    (x :: xs).getD (npArgmax (x :: xs)) 0 = xs.foldl max x := by
  rw [List.getD_eq_getElem _ _ (npArgmax_lt x xs)]
  exact List.getElem_indexOf _

/-- C4: intent decoding returns, in single-label mode, the argmax intent
id over the classifier scores — a valid index whose score is maximal —
and, in multi-label mode, exactly the set of intent ids whose
independent probability exceeds the threshold `0.5` (which may be empty
or contain several ids). -/
theorem C4_intent_decoding (x : ℚ) (xs : List ℚ) (probs : List ℚ) (i : ℕ) :
    (npArgmax (x :: xs) < (x :: xs).length
      ∧ (x :: xs).getD (npArgmax (x :: xs)) 0 ∈ x :: xs
      ∧ ∀ y ∈ x :: xs, y ≤ (x :: xs).getD (npArgmax (x :: xs)) 0)
  ∧ (i ∈ multiPredIds probs ↔
      i < probs.length ∧ (1 : ℚ)/2 < probs.getD i 0) := by
  refine ⟨⟨npArgmax_lt x xs, ?_, ?_⟩, ?_⟩
  · rw [npArgmax_getD]; exact foldl_max_mem xs x
  · intro y hy; rw [npArgmax_getD]; exact le_foldl_max xs x y hy
  · simp only [multiPredIds, List.mem_map, List.mem_filter]
    constructor
    · rintro ⟨⟨j, v⟩, ⟨hmem, hgt⟩, rfl⟩
      have hx : probs[j]? = some v := List.mk_mem_enum_iff_getElem?.1 hmem
      have hlt : j < probs.length := by
        by_contra hge
        rw [List.getElem?_eq_none (Nat.le_of_not_lt hge)] at hx
        exact Option.noConfusion hx
      have hgt2 : (1 : ℚ)/2 < v := by simpa using hgt
      have hxv : probs[j] = v := by
        rw [List.getElem?_eq_getElem hlt] at hx
        exact Option.some.inj hx
      refine ⟨hlt, ?_⟩
      rw [List.getD_eq_getElem _ _ hlt, hxv]
      exact hgt2
    · rintro ⟨hlt, hgt⟩
      refine ⟨(i, probs.getD i 0), ⟨?_, by simpa using hgt⟩, rfl⟩
      rw [List.mk_mem_enum_iff_getElem?, List.getElem?_eq_getElem hlt,
        List.getD_eq_getElem _ _ hlt]

/-- Witness for C4 at concrete inputs: scores `[1, 3, 2]` (argmax index
is inside the list) and probabilities `[0.3, 0.7]` (index 1 crosses the
0.5 threshold). -/
theorem C4_intent_decoding_witness :
    npArgmax [(1 : ℚ), 3, 2] < 3
  ∧ (1 ∈ multiPredIds [(3 : ℚ)/10, 7/10] ↔
      1 < 2 ∧ (1 : ℚ)/2 < [(3 : ℚ)/10, 7/10].getD 1 0) :=
  ⟨(C4_intent_decoding 1 [3, 2] [] 0).1.1,
   (C4_intent_decoding 1 [3, 2] [(3 : ℚ)/10, 7/10] 1).2⟩

/-! ## Reported losses (lines 252-260, 327, 441)

`tag_loss_function = nn.NLLLoss(weight=weight_mask, size_average=False)`
sums (never averages) the per-token losses, each scaled by the weight at
its target tag id; the weight vector is all ones except a `0` at
`tag_to_idx['<pad>']`.  The script then reports
`tag_loss.item() / sum(lens)` and `class_loss.item() / len(lens)`.
-/

/-- The per-tag loss weight vector (lines 253-254): ones of length
`numTags`, with the entry at the pad tag id overwritten by `0`. -/
def weight_mask (numTags padIdx : ℕ) : List ℚ :=
  (List.replicate numTags (1 : ℚ)).set padIdx 0

/-- Semantics of the torch library call `nn.NLLLoss(weight=w,
size_average=False)` (line 255): the sum, over a batch of
`(target id, negative log-probability of the target)` pairs, of each
negative log-probability scaled by the weight at its target id. -/
def nllLossSumWeighted (w : List ℚ) (batch : List (ℕ × ℚ)) : ℚ :=
  (batch.map (fun e => w.getD e.1 0 * e.2)).sum

/-- Reported slot-tagging loss of a batch (line 327 in `decode`, line
441 in the training loop): summed loss divided by `sum(lens)`. -/
def reportedTagLoss (tagLossSum : ℚ) (lens : List ℕ) : ℚ :=
  tagLossSum / (lens.sum : ℚ)

/-- Reported intent loss of a batch (same lines): summed loss divided by
`len(lens)`, the number of examples. -/
def reportedClassLoss (classLossSum : ℚ) (lens : List ℕ) : ℚ :=
  classLossSum / (lens.length : ℚ)

theorem weight_mask_getD (n p t : ℕ) (hp : p < n) (ht : t < n) :
    (weight_mask n p).getD t 0 = if t = p then 0 else 1 := by
  have hlen : (weight_mask n p).length = n := by
    simp [weight_mask]
  rw [List.getD_eq_getElem _ _ (by rw [hlen]; exact ht)]
  by_cases h : t = p
  · subst h
    simp [weight_mask, List.getElem_set]
  · have hne : ¬ p = t := fun hh => h hh.symm
    simp [weight_mask, List.getElem_set, hne, h]

theorem nllLossSum_mask (n p : ℕ) (hp : p < n) :
    ∀ (batch : List (ℕ × ℚ)), (∀ e ∈ batch, e.1 < n) →
      nllLossSumWeighted (weight_mask n p) batch
        = ((batch.filter (fun e => e.1 ≠ p)).map Prod.snd).sum := by
  intro batch
  induction batch with
  | nil => intro _; simp [nllLossSumWeighted]
  | cons e rest ih =>
      intro hb
      have he : e.1 < n := hb e (List.mem_cons_self _ _)
      have hrest := ih (fun x hx => hb x (List.mem_cons_of_mem _ hx))
      simp only [nllLossSumWeighted] at hrest ⊢
      simp only [List.map_cons, List.sum_cons]
      rw [weight_mask_getD n p e.1 hp he, List.filter_cons]
      by_cases hpad : e.1 = p
      · rw [if_pos hpad, if_neg (by simp [hpad]), hrest, zero_mul, zero_add]
      · rw [if_neg hpad, if_pos (by simp [hpad])]
        simp only [List.map_cons, List.sum_cons]
        rw [hrest, one_mul]

/-- C5: for every batch, the reported slot-tagging loss is the summed
(unreduced) tag loss divided by `sum(lens)`, with the pad tag's
contribution zeroed — the weight mask entry at the reserved pad tag id
is `0`, so the masked sum equals the sum over non-pad targets only —
and the reported intent loss is the summed class loss divided by
`len(lens)`, the number of examples in the batch, not by token
count. -/
theorem C5_reported_loss_normalization (n p : ℕ) (hp : p < n)
    (batch : List (ℕ × ℚ)) (hb : ∀ e ∈ batch, e.1 < n)
    (lens : List ℕ) (classLossSum : ℚ) :
    reportedTagLoss (nllLossSumWeighted (weight_mask n p) batch) lens
      = ((batch.filter (fun e => e.1 ≠ p)).map Prod.snd).sum / (lens.sum : ℚ)
  ∧ (weight_mask n p).getD p 0 = 0
  ∧ reportedClassLoss classLossSum lens = classLossSum / (lens.length : ℚ) := by
  refine ⟨?_, ?_, rfl⟩
  · rw [reportedTagLoss, nllLossSum_mask n p hp batch hb]
  · rw [weight_mask_getD n p p hp hp]
    simp

/-- Witness for C5: a two-tag vocabulary with pad id `1`, a batch of
three tokens one of which is the pad, lengths `[2]`. -/
theorem C5_reported_loss_normalization_witness :
    ((1 : ℕ) < 2 ∧ ∀ e ∈ [((0 : ℕ), (3 : ℚ)), (1, 5), (0, 7)], e.1 < 2)
  ∧ (reportedTagLoss
        (nllLossSumWeighted (weight_mask 2 1) [((0 : ℕ), (3 : ℚ)), (1, 5), (0, 7)])
        [2]
      = ((([((0 : ℕ), (3 : ℚ)), (1, 5), (0, 7)]).filter
            (fun e => e.1 ≠ 1)).map Prod.snd).sum / (([2] : List ℕ).sum : ℚ)
    ∧ (weight_mask 2 1).getD 1 0 = 0
    ∧ reportedClassLoss 9 [2] = 9 / (([2] : List ℕ).length : ℚ)) :=
  ⟨⟨by decide, by decide⟩,
   C5_reported_loss_normalization 2 1 (by decide)
     [((0 : ℕ), (3 : ℚ)), (1, 5), (0, 7)] (by decide) [2] 9⟩

/-! ## Top-level script control flow (lines 69-260 and 402-514)

The script is straight-line module-level code.  The embedding records,
in order, the assertions (lines 71, 76-78, 89), the derived flags
(lines 79-91), which phase binds which global names, and which names
each later phase reads.  Vocabulary/corpus loading (lines 162-196) runs
only in the non-testing branch; the tagger model is constructed only in
the CRF branch (lines 199-204); `model_tag.to(device)` (line 236) and
the `weight_mask` construction (line 253) run unconditionally; the
training block (lines 402-514) runs only in the non-testing branch.
Referencing a module-level name that no executed branch has bound
raises a `NameError` in Python; the embedding returns that error
together with the trace of the phases completed before it. -/

/-- The command-line options relevant to the control flow. `read_model`
and `out_path` are `none` when the flag is not supplied (argparse
default), and Python's `bool(...)` of them is `Option.isSome`. -/
structure Opts where
  task_st : String
  task_sc : String
  sc_type : String
  st_weight : ℚ
  testing : Bool
  read_model : Option String
  out_path : Option String

/-- Externally visible phases of a run. -/
inductive Event where
  | loadVocab
  | loadSenEmb
  | loadData
  | train
  deriving DecidableEq

/-- Terminal failures of the script prologue. -/
inductive Err where
  | assertionError
  | nameError (n : String)
  deriving DecidableEq

/-- The admissible `--task_sc` strategies (line 77, besides `none`). -/
def scStrategies : List String :=
  ["2tails", "maxPooling", "hiddenCNN", "hiddenAttention"]

/-- The conjunction of the assertions at lines 71, 76, 77, 78 and 89.
They run in this order, each before any data loading, and each aborts
with the same observable outcome (`AssertionError`, nothing loaded), so
the embedding guards on their conjunction. -/
abbrev configAssertsOk (o : Opts) : Prop :=
  (o.testing = o.out_path.isSome ∧ o.out_path.isSome = o.read_model.isSome)
  ∧ o.task_st ∈ ["slot_tagger_sen_level", "slot_tagger_with_crf_sen_level"]
  ∧ o.task_sc ∈ "none" :: scStrategies
  ∧ o.sc_type ∈ ["single_cls_CE", "multi_cls_BCE"]
  ∧ (0 < o.st_weight ∧ o.st_weight ≤ 1)

/-- `opt.crf` (lines 84-87). -/
abbrev crfFlag (o : Opts) : Prop := o.task_st = "slot_tagger_with_crf_sen_level"

/-- Whether `opt.task_sc` is still set after line 90-91 nulled it. -/
abbrev taskScActive (o : Opts) : Prop :=
  ¬ (o.st_weight = 1 ∨ o.task_sc = "none")

/-- Whether the vocabulary / embedding / corpus loading branch (lines
162-196) ran, binding `tag_to_idx`, `class_to_idx`, `ext_sen_size` and
the data arrays. -/
abbrev loadedFlag (o : Opts) : Prop := o.testing = false

/-- The phases completed by the loading branch. -/
def dataTrace (o : Opts) : List Event :=
  if o.testing then [] else [Event.loadVocab, Event.loadSenEmb, Event.loadData]

/-- The top-level run of the script up to (and including) entering the
training block, returning the completed phases and the failure, if
any. -/
def runScript (o : Opts) : List Event × Option Err :=
  if ¬ configAssertsOk o then
    ([], some Err.assertionError)
  else if crfFlag o ∧ ¬ loadedFlag o then
    (dataTrace o, some (Err.nameError "ext_sen_size"))
  else if taskScActive o ∧ ¬ loadedFlag o then
    (dataTrace o, some (Err.nameError "class_to_idx"))
  else if ¬ crfFlag o then
    (dataTrace o, some (Err.nameError "model_tag"))
  else if ¬ loadedFlag o then
    (dataTrace o, some (Err.nameError "tag_to_idx"))
  else if o.testing = false then
    (dataTrace o ++ [Event.train], none)
  else
    (dataTrace o, none)

/-- C6: configuration errors fail fast before any data loading: the run
aborts (with nothing loaded) if `st_weight` lies outside `(0,1]`, if
`--testing` is requested without both `--read_model` and `--out_path`,
or if a non-testing run supplies either of those two paths. -/
theorem C6_config_errors_fail_fast (o : Opts)
    (h : (o.st_weight ≤ 0 ∨ 1 < o.st_weight)
       ∨ (o.testing = true ∧ (o.read_model.isSome = false ∨ o.out_path.isSome = false))
       ∨ (o.testing = false ∧ (o.read_model.isSome = true ∨ o.out_path.isSome = true))) :
    runScript o = ([], some Err.assertionError) := by
  have hko : ¬ configAssertsOk o := by
    rintro ⟨⟨he1, he2⟩, -, -, -, hw1, hw2⟩
    rcases h with h | ⟨ht, h⟩ | ⟨ht, h⟩
    · rcases h with h | h <;> linarith
    · rcases h with h | h <;> simp_all
    · rcases h with h | h <;> simp_all
  rw [runScript, if_pos hko]

/-- Witness for C6: `st_weight = 2` (outside `(0,1]`), a non-testing run
with no paths supplied. -/
theorem C6_config_errors_fail_fast_witness :
    (((2 : ℚ) ≤ 0 ∨ 1 < (2 : ℚ))
       ∨ (false = true ∧ ((none : Option String).isSome = false
            ∨ (none : Option String).isSome = false))
       ∨ (false = false ∧ ((none : Option String).isSome = true
            ∨ (none : Option String).isSome = true)))
  ∧ runScript
      ⟨"slot_tagger_sen_level", "none", "single_cls_CE", 2, false, none, none⟩
      = ([], some Err.assertionError) :=
  ⟨Or.inl (Or.inr (by decide)),
   C6_config_errors_fail_fast
     ⟨"slot_tagger_sen_level", "none", "single_cls_CE", 2, false, none, none⟩
     (Or.inl (Or.inr (by decide)))⟩

/-- C9: argument validation accepts `task_st = 'slot_tagger_sen_level'`,
but no branch constructs a tagger model for it — `model_tag` is bound
only in the CRF branch — so such a (non-testing) run fails on the
unbound name `model_tag` at the model-to-device step, after data
loading but before any training or evaluation. -/
theorem C9_sen_level_unbound_model_tag (o : Opts)
    (h1 : o.testing = false) (h2 : o.out_path = none) (h3 : o.read_model = none)
    (h4 : o.task_st = "slot_tagger_sen_level")
    (h5 : o.task_sc ∈ "none" :: scStrategies)
    (h6 : o.sc_type ∈ ["single_cls_CE", "multi_cls_BCE"])
    (h7 : 0 < o.st_weight) (h8 : o.st_weight ≤ 1) :
    runScript o = ([Event.loadVocab, Event.loadSenEmb, Event.loadData],
        some (Err.nameError "model_tag"))
  ∧ Event.train ∉ [Event.loadVocab, Event.loadSenEmb, Event.loadData] := by
  have hok : configAssertsOk o :=
    ⟨⟨by simp [h1, h2], by simp [h2, h3]⟩, by simp [h4], h5, h6, h7, h8⟩
  have hncrf : ¬ crfFlag o := by
    intro hc
    rw [crfFlag, h4] at hc
    exact absurd hc (by decide)
  have hload : loadedFlag o := h1
  have htr : dataTrace o = [Event.loadVocab, Event.loadSenEmb, Event.loadData] := by
    simp [dataTrace, h1]
  refine ⟨?_, by decide⟩
  rw [runScript, if_neg (not_not_intro hok),
    if_neg (fun hc => hncrf hc.1),
    if_neg (fun hc => hc.2 hload),
    if_pos hncrf, htr]

/-- Witness for C9: a concrete non-testing run with the plain (non-CRF)
tagger selected. -/
theorem C9_sen_level_unbound_model_tag_witness :
    runScript
      ⟨"slot_tagger_sen_level", "none", "single_cls_CE", 1, false, none, none⟩
      = ([Event.loadVocab, Event.loadSenEmb, Event.loadData],
          some (Err.nameError "model_tag"))
  ∧ Event.train ∉ [Event.loadVocab, Event.loadSenEmb, Event.loadData] :=
  C9_sen_level_unbound_model_tag
    ⟨"slot_tagger_sen_level", "none", "single_cls_CE", 1, false, none, none⟩
    rfl rfl rfl rfl (by decide) (by decide) (by decide) (by decide)

/-- C10: standalone evaluation mode (`--testing`) cannot complete on any
input: loading runs only in the non-testing branch, yet testing-mode
model construction references names bound only there, so every
testing-mode run terminates with an error and an empty phase trace —
no results are ever produced. -/
theorem C10_testing_mode_cannot_complete (o : Opts) (h : o.testing = true) :
    ∃ e : Err, runScript o = ([], some e) := by
  have htr : dataTrace o = [] := by simp [dataTrace, h]
  rw [runScript]
  split_ifs <;>
    first
      | exact ⟨_, rfl⟩
      | exact ⟨_, by rw [htr]⟩
      | (exfalso; simp_all [loadedFlag])

/-- Witness for C10: a concrete testing-mode invocation with both paths
supplied and valid hyperparameters. -/
theorem C10_testing_mode_cannot_complete_witness :
    (true = true)
  ∧ ∃ e : Err, runScript
      ⟨"slot_tagger_with_crf_sen_level", "none", "single_cls_CE", 1, true,
        some "model", some "out"⟩ = ([], some e) :=
  ⟨rfl, C10_testing_mode_cannot_complete
    ⟨"slot_tagger_with_crf_sen_level", "none", "single_cls_CE", 1, true,
      some "model", some "out"⟩ rfl⟩

/-! ## Checkpointing (training loop, lines 487-495)

`best_f1` starts at `-1`; after each epoch a combined validation score
is computed and, if `best_f1 < val_f1_score`, the tagger (and, when the
intent task is active, the classifier) is saved under the same `if` and
`best_f1` is updated. -/

/-- Combined validation score of an epoch (lines 487-490):
`st_weight * f_val + (1 - st_weight) * cf_val` when the intent task is
active, `f_val` alone otherwise. -/
def valF1Score (taskSc : Bool) (stWeight f cf : ℚ) : ℚ :=
  if taskSc then stWeight * f + (1 - stWeight) * cf else f

/-- The per-epoch save decisions (lines 491-495): an epoch saves iff
`best < score`, in which case `best` becomes that score. -/
def checkpointFold (best : ℚ) : List ℚ → List Bool
  | [] => []
  | s :: rest =>
      decide (best < s) :: checkpointFold (if best < s then s else best) rest

/-- The save decisions of a whole run, starting from `best_f1 = -1`
(line 406). -/
def savedEpochs (scores : List ℚ) : List Bool := checkpointFold (-1) scores

theorem if_lt_eq_max (b s : ℚ) : (if b < s then s else b) = max b s := by
  by_cases h : b < s
  · rw [if_pos h, max_eq_right h.le]
  · rw [if_neg h, max_eq_left (le_of_not_lt h)]

theorem checkpointFold_getD :
    ∀ (l : List ℚ) (b : ℚ) (i : ℕ), i < l.length →
      (checkpointFold b l).getD i false
        = decide ((l.take i).foldl max b < l.getD i 0) := by
  intro l
  induction l with
  | nil => intro b i hi; simp at hi
  | cons s rest ih =>
      intro b i hi
      match i with
      | 0 => simp [checkpointFold]
      | j + 1 =>
          have hj : j < rest.length := by simpa using hi
          simp only [checkpointFold, List.getD_cons_succ]
          rw [ih (if b < s then s else b) j hj, if_lt_eq_max,
            List.take_succ_cons, List.foldl_cons]

theorem foldl_max_lt_iff :
    ∀ (l : List ℚ) (b c : ℚ), l.foldl max b < c ↔ b < c ∧ ∀ x ∈ l, x < c := by
  intro l
  induction l with
  | nil => intro b c; simp
  | cons s rest ih =>
      intro b c
      simp only [List.foldl_cons]
      rw [ih]
      constructor
      · rintro ⟨hm, hall⟩
        rcases max_lt_iff.1 hm with ⟨hb, hs⟩
        exact ⟨hb, fun x hx => by
          rcases List.mem_cons.1 hx with rfl | hx2
          · exact hs
          · exact hall x hx2⟩
      · rintro ⟨hb, hall⟩
        exact ⟨max_lt_iff.2 ⟨hb, hall s (List.mem_cons_self _ _)⟩,
          fun x hx => hall x (List.mem_cons_of_mem _ hx)⟩

/-- C7: during training, a checkpoint (tagger, and classifier when the
intent task is active — both under the same `if`) is saved after an
epoch if and only if that epoch's combined validation score
(`st_weight·f + (1-st_weight)·cf` when the intent task is active, `f`
alone otherwise, per `valF1Score`) strictly exceeds every earlier
epoch's score; on a tie or a decrease nothing is saved.  F1 scores are
non-negative, which discharges the `-1` initialization of `best_f1`. -/
theorem C7_checkpoint_on_strict_improvement (epochResults : List (ℚ × ℚ))
    (taskSc : Bool) (w : ℚ) (scores : List ℚ)
    (hs : scores = epochResults.map (fun p => valF1Score taskSc w p.1 p.2))
    (hpos : ∀ q ∈ scores, 0 ≤ q) (i : ℕ) (hi : i < scores.length) :
    (savedEpochs scores).getD i false = true ↔
      ∀ j, j < i → scores.getD j 0 < scores.getD i 0 := by
  rw [savedEpochs, checkpointFold_getD scores (-1) i hi]
  rw [decide_eq_true_iff, foldl_max_lt_iff]
  have hq : scores.getD i 0 ∈ scores := by
    rw [List.getD_eq_getElem scores 0 hi]
    exact List.getElem_mem hi
  have hneg : (-1 : ℚ) < scores.getD i 0 :=
    lt_of_lt_of_le (by norm_num) (hpos _ hq)
  constructor
  · rintro ⟨-, hall⟩ j hj
    have hjl : j < scores.length := lt_trans hj hi
    refine hall (scores.getD j 0) ?_
    rw [List.getD_eq_getElem scores 0 hjl]
    have hjt : j < (scores.take i).length := by simp; omega
    have hje : scores[j] = (scores.take i).get ⟨j, hjt⟩ := by
      rw [List.get_eq_getElem, List.getElem_take]
    rw [hje]
    exact List.get_mem _ _ _
  · intro hall
    refine ⟨hneg, fun x hx => ?_⟩
    obtain ⟨j, hj, hxv⟩ := List.getElem_of_mem hx
    rw [List.getElem_take] at hxv
    simp only [List.length_take, lt_min_iff] at hj
    have hlt := hall j hj.1
    rw [List.getD_eq_getElem scores 0 hj.2] at hlt
    rw [← hxv]
    exact hlt

/-- Witness for C7: slot-only scoring (`taskSc = false`), validation F1
scores `[50, 60]`; epoch 1 improves on epoch 0, so it saves. -/
theorem C7_checkpoint_on_strict_improvement_witness :
    ([(50 : ℚ), 60]
        = [((50 : ℚ), (70 : ℚ)), (60, 40)].map
            (fun p => valF1Score false 1 p.1 p.2)
      ∧ (∀ q ∈ [(50 : ℚ), 60], 0 ≤ q) ∧ 1 < [(50 : ℚ), 60].length)
  ∧ ((savedEpochs [(50 : ℚ), 60]).getD 1 false = true ↔
      ∀ j, j < 1 → ([(50 : ℚ), 60]).getD j 0 < ([(50 : ℚ), 60]).getD 1 0) :=
  ⟨⟨rfl, by decide, by decide⟩,
   C7_checkpoint_on_strict_improvement [((50 : ℚ), (70 : ℚ)), (60, 40)]
     false 1 [(50 : ℚ), 60] rfl (by decide) 1 (by decide)⟩

/-! ## Shuffling and visiting order (lines 277-283, 383-387, 408-425)

Each training epoch runs `np.random.shuffle(train_data_index)` (line
412) — one draw from the single global numpy random sequence — before
the minibatch loop `for j in range(0, nsentences, opt.batchSize)`
(line 420).  `decode` builds its own index array
`data_index = np.arange(len(data_feats))` (line 278) and iterates
`for j in range(0, len(data_index), opt.test_batchSize)` (line 283)
without ever shuffling; in standalone-evaluation mode each output line
is prefixed with the example's original line number (lines 383-385),
otherwise not (line 387). -/

/-- Events of a data pass. -/
inductive TrainEvent where
  | shuffle
  | batch (j : ℕ)
  deriving DecidableEq

/-- The batch start offsets `range(0, n, batchSize)` of Python. -/
def batchStarts (n batchSize : ℕ) : List ℕ :=
  List.range' 0 ((n + batchSize - 1) / batchSize) batchSize

/-- One training epoch's event trace (lines 408-425): the single
shuffle, then the minibatch loop. -/
def trainEpochTrace (nsent batchSize : ℕ) : List TrainEvent :=
  TrainEvent.shuffle :: (batchStarts nsent batchSize).map TrainEvent.batch

/-- One evaluation pass's event trace (decode, line 283): only the
batch loop, no shuffle anywhere. -/
def decodeTrace (n batchSize : ℕ) : List TrainEvent :=
  (batchStarts n batchSize).map TrainEvent.batch

/-- decode's index array (line 278): `np.arange(len(data_feats))`. -/
def decodeDataIndex (n : ℕ) : List ℕ := List.range n

/-- One output line of decode (lines 383-387): prefixed with the
original line number exactly in standalone-evaluation mode. -/
def outputLine (testing : Bool) (lineNum : ℕ) (body : String) : String :=
  if testing then toString lineNum ++ " : " ++ body else body

theorem count_shuffle_map_batch (l : List ℕ) :
    (l.map TrainEvent.batch).count TrainEvent.shuffle = 0 :=
  List.count_eq_zero.2 (fun h => by
    obtain ⟨j, -, hj⟩ := List.mem_map.1 h
    exact TrainEvent.noConfusion hj)

/-- C8: in every training epoch the index permutation is shuffled
exactly once, before the minibatch loop of that epoch (the shuffle is
the head of the epoch trace, drawn from the single global random
sequence); every evaluation pass visits the data in stored corpus order
— its index array is the identity permutation and its trace contains no
shuffle — and in standalone-evaluation mode each output line is
prefixed with the example's original line number. -/
theorem C8_shuffle_once_eval_in_order (nsent bs n i ln : ℕ) (body : String)
    (hi : i < n) :
    ((trainEpochTrace nsent bs).count TrainEvent.shuffle = 1
      ∧ (trainEpochTrace nsent bs).head? = some TrainEvent.shuffle)
  ∧ ((decodeTrace n bs).count TrainEvent.shuffle = 0
      ∧ (decodeDataIndex n).getD i 0 = i
      ∧ (decodeDataIndex n).length = n)
  ∧ outputLine true ln body = toString ln ++ " : " ++ body := by
  refine ⟨⟨?_, rfl⟩, ⟨count_shuffle_map_batch _, ?_, by simp [decodeDataIndex]⟩, rfl⟩
  · rw [trainEpochTrace, List.count_cons_self, count_shuffle_map_batch]
  · rw [decodeDataIndex,
      List.getD_eq_getElem (List.range n) 0 (by simpa using hi)]
    exact List.getElem_range _ _

/-- Witness for C8 at `nsent = 5`, `bs = 2`, `n = 3`, `i = 1`, line
number `7`. -/
theorem C8_shuffle_once_eval_in_order_witness :
    (1 < 3)
  ∧ (((trainEpochTrace 5 2).count TrainEvent.shuffle = 1
      ∧ (trainEpochTrace 5 2).head? = some TrainEvent.shuffle)
  ∧ ((decodeTrace 3 2).count TrainEvent.shuffle = 0
      ∧ (decodeDataIndex 3).getD 1 0 = 1
      ∧ (decodeDataIndex 3).length = 3)
  ∧ outputLine true 7 "w:g:p <=> a <=> b" = toString 7 ++ " : " ++ "w:g:p <=> a <=> b") :=
  ⟨by decide, C8_shuffle_once_eval_in_order 5 2 3 1 7 "w:g:p <=> a <=> b" (by decide)⟩
